import Mathlib

/-!
# Verification of the E-Learning portal's client-side logic

Shallow embedding of the TypeScript sources: JS `Date` values are integer
timestamps in milliseconds, JS numbers are rationals, Firestore documents
are Lean records, the insertion-ordered JS `Map` is an association list.
Clock reads (`new Date()`, `serverTimestamp()`) are passed as explicit
`now` arguments.
-/

namespace ELearning

/-- A user account (types/index, interface User). -/
structure User where
  id : String
  email : String
  name : String
  role : String
  createdAt : Int
  deriving DecidableEq

/-- An uploaded video (types/index, interface Video). -/
structure Video where
  id : String
  title : String
  description : String
  url : String
  thumbnailUrl : Option String
  duration : ℚ
  uploadedBy : String
  uploadedAt : Int
  courseId : Option String
  teacherId : String
  deriving DecidableEq

/-- A file attached to a submission (types/index, interface SubmissionAttachment). -/
structure SubmissionAttachment where
  id : String
  name : String
  downloadUrl : String
  contentType : String
  size : ℚ
  deriving DecidableEq

/-- A student's submission for an assignment (types/index, interface Submission).
`score` is `none` when the submission is ungraded (the TS field is optional). -/
structure Submission where
  id : String
  assignmentId : String
  studentId : String
  content : String
  audioUrl : Option String
  audioStoragePath : Option String
  attachments : Option (List SubmissionAttachment)
  submittedAt : Int
  score : Option ℚ
  feedback : Option String
  gradedBy : Option String
  gradedAt : Option Int
  teacherId : String
  studentName : String
  studentEmail : String
  deriving DecidableEq

/-- An assignment created by a teacher (types/index, interface Assignment). -/
structure Assignment where
  id : String
  videoId : String
  title : String
  description : String
  dueDate : Option Int
  createdBy : String
  createdAt : Int
  teacherId : String
  deriving DecidableEq

/-- A watch-progress document as read by the teacher dashboard
(TeacherPage, interface WatchProgressRecord). -/
structure WatchProgressRecord where
  id : String
  studentId : String
  studentName : String
  studentEmail : String
  videoId : String
  videoTitle : String
  watchTime : ℚ
  completed : Bool
  lastWatchedAt : Int
  deriving DecidableEq

/-- One row of the weekly/monthly dashboard summary (TeacherPage, interface
SummaryRow). -/
structure SummaryRow where
  userId : String
  studentName : String
  studentEmail : String
  totalWatchTime : ℚ
  videosCompleted : Nat
  assignmentsSubmitted : Nat
  averageScore : Option ℚ
  deriving DecidableEq

/-- The accumulator used while building a summary (TeacherPage, interface
MutableSummary extends SummaryRow with totalScore and gradedCount). -/
structure MutableSummary where
  userId : String
  studentName : String
  studentEmail : String
  totalWatchTime : ℚ
  videosCompleted : Nat
  assignmentsSubmitted : Nat
  averageScore : Option ℚ
  totalScore : ℚ
  gradedCount : Nat
  deriving DecidableEq

/-- Lookup in the insertion-ordered `Map<string, MutableSummary>`. -/
def mapGet : List (String × MutableSummary) → String → Option MutableSummary
  | [], _ => none
  | (k0, v0) :: rest, k => if k0 = k then some v0 else mapGet rest k

/-- `Map.set`: replaces the value in place when the key is present (keeping
its position), appends a new entry otherwise. -/
def mapSet : List (String × MutableSummary) → String → MutableSummary →
    List (String × MutableSummary)
  | [], k, v => [(k, v)]
  | (k0, v0) :: rest, k, v =>
      if k0 = k then (k, v) :: rest else (k0, v0) :: mapSet rest k v

/-- The keys of the map, in insertion order. -/
def keysOf (m : List (String × MutableSummary)) : List String :=
  m.map (fun e => e.1)

/-- `parseFloat(x.toFixed(2))`: rounding to two decimal places, modelled on
rationals. -/
def roundTo2 (q : ℚ) : ℚ := (round (q * 100) : ℤ) / 100

/-- Milliseconds in a day; `start.setDate(start.getDate() - days)` is day
arithmetic on the millisecond timeline. -/
def msPerDay : Int := 86400000

/-- The start of the trailing `days`-day window ending at `now`. -/
def windowStart (now : Int) (days : Int) : Int := now - days * msPerDay

/-- The default accumulator created when a progress record's student is seen
for the first time (TeacherPage, buildSummary, first forEach). -/
def emptySummaryOfProgress (r : WatchProgressRecord) : MutableSummary :=
  { userId := r.studentId
    studentName := r.studentName
    studentEmail := r.studentEmail
    totalWatchTime := 0
    videosCompleted := 0
    assignmentsSubmitted := 0
    averageScore := none
    totalScore := 0
    gradedCount := 0 }

/-- The accumulator after one progress record is folded in (TeacherPage,
buildSummary, first forEach body). -/
def progressEntry (m : List (String × MutableSummary)) (r : WatchProgressRecord) :
    MutableSummary :=
  let existing := (mapGet m r.studentId).getD (emptySummaryOfProgress r)
  { existing with
    totalWatchTime := existing.totalWatchTime + r.watchTime
    videosCompleted := existing.videosCompleted + (if r.completed then 1 else 0) }

/-- One step of the first forEach of buildSummary. -/
def progressStep (m : List (String × MutableSummary)) (r : WatchProgressRecord) :
    List (String × MutableSummary) :=
  mapSet m r.studentId (progressEntry m r)

/-- The default accumulator created when a submission's student is seen for
the first time (TeacherPage, buildSummary, second forEach). -/
def emptySummaryOfSubmission (s : Submission) : MutableSummary :=
  { userId := s.studentId
    studentName := s.studentName
    studentEmail := s.studentEmail
    totalWatchTime := 0
    videosCompleted := 0
    assignmentsSubmitted := 0
    averageScore := none
    totalScore := 0
    gradedCount := 0 }

/-- The accumulator after one submission is folded in (TeacherPage,
buildSummary, second forEach body). -/
def submissionEntry (m : List (String × MutableSummary)) (s : Submission) :
    MutableSummary :=
  let existing := (mapGet m s.studentId).getD (emptySummaryOfSubmission s)
  let counted := { existing with assignmentsSubmitted := existing.assignmentsSubmitted + 1 }
  match s.score with
  | some sc =>
      { counted with
        totalScore := counted.totalScore + sc
        gradedCount := counted.gradedCount + 1 }
  | none => counted

/-- One step of the second forEach of buildSummary. -/
def submissionStep (m : List (String × MutableSummary)) (s : Submission) :
    List (String × MutableSummary) :=
  mapSet m s.studentId (submissionEntry m s)

/-- The final map from accumulator to summary row (TeacherPage, buildSummary,
trailing Array.from(...).map). -/
def finalizeSummary (e : MutableSummary) : SummaryRow :=
  { userId := e.userId
    studentName := e.studentName
    studentEmail := e.studentEmail
    totalWatchTime := e.totalWatchTime
    videosCompleted := e.videosCompleted
    assignmentsSubmitted := e.assignmentsSubmitted
    averageScore :=
      if e.gradedCount > 0 then some (roundTo2 (e.totalScore / (e.gradedCount : ℚ)))
      else none }

/-- `progress.filter((record) => record.lastWatchedAt >= start)`. -/
def inWindowProgress (start : Int) (l : List WatchProgressRecord) :
    List WatchProgressRecord :=
  l.filter (fun r => decide (start ≤ r.lastWatchedAt))

/-- `submissions.filter((submission) => submission.submittedAt >= start)`. -/
def inWindowSubmissions (start : Int) (l : List Submission) : List Submission :=
  l.filter (fun s => decide (start ≤ s.submittedAt))

/-- TeacherPage's buildSummary. `now` is the clock value `new Date()` read at
the start of the call. -/
def buildSummary (progress : List WatchProgressRecord) (submissions : List Submission)
    (days : Int) (now : Int) : List SummaryRow :=
  let start := windowStart now days
  let afterProgress := (inWindowProgress start progress).foldl progressStep []
  let afterSubmissions :=
    (inWindowSubmissions start submissions).foldl submissionStep afterProgress
  afterSubmissions.map (fun e => finalizeSummary e.2)

/-- The in-window progress records belonging to one student. -/
def progressOf (l : List WatchProgressRecord) (u : String) : List WatchProgressRecord :=
  l.filter (fun r => decide (r.studentId = u))

/-- The in-window submissions belonging to one student. -/
def submissionsOf (l : List Submission) (u : String) : List Submission :=
  l.filter (fun s => decide (s.studentId = u))

/-- The sum of watchTime over one student's records. -/
def totalWatchOf (l : List WatchProgressRecord) (u : String) : ℚ :=
  ((progressOf l u).map (fun r => r.watchTime)).sum

/-- The number of one student's records with completed = true. -/
def completedOf (l : List WatchProgressRecord) (u : String) : Nat :=
  ((progressOf l u).filter (fun r => r.completed)).length

/-- The numeric scores of one student's submissions. -/
def scoresOf (l : List Submission) (u : String) : List ℚ :=
  (submissionsOf l u).filterMap (fun s => s.score)

theorem mapGet_nil (k : String) : mapGet [] k = none := rfl

theorem mapGet_cons (k0 : String) (v0 : MutableSummary)
    (t : List (String × MutableSummary)) (k : String) :
    mapGet ((k0, v0) :: t) k = if k0 = k then some v0 else mapGet t k := rfl

theorem mapSet_nil (k : String) (v : MutableSummary) : mapSet [] k v = [(k, v)] := rfl

theorem mapSet_cons (k0 : String) (v0 : MutableSummary)
    (t : List (String × MutableSummary)) (k : String) (v : MutableSummary) :
    mapSet ((k0, v0) :: t) k v =
      if k0 = k then (k, v) :: t else (k0, v0) :: mapSet t k v := rfl

theorem keysOf_nil : keysOf [] = [] := rfl

theorem keysOf_cons (k0 : String) (v0 : MutableSummary)
    (t : List (String × MutableSummary)) : keysOf ((k0, v0) :: t) = k0 :: keysOf t := rfl

theorem mapGet_mapSet_self :
    ∀ (m : List (String × MutableSummary)) (k : String) (v : MutableSummary),
      mapGet (mapSet m k v) k = some v := by
  intro m
  induction m with
  | nil => intro k v; simp [mapSet_nil, mapGet_cons]
  | cons hd t ih =>
      intro k v
      obtain ⟨k0, v0⟩ := hd
      rw [mapSet_cons]
      by_cases hk : k0 = k
      · rw [if_pos hk, mapGet_cons, if_pos rfl]
      · rw [if_neg hk, mapGet_cons, if_neg hk]
        exact ih k v

theorem mapGet_mapSet_ne :
    ∀ (m : List (String × MutableSummary)) (k q : String) (v : MutableSummary),
      q ≠ k → mapGet (mapSet m k v) q = mapGet m q := by
  intro m
  induction m with
  | nil =>
      intro k q v hne
      rw [mapSet_nil, mapGet_cons, if_neg (Ne.symm hne), mapGet_nil]
  | cons hd t ih =>
      intro k q v hne
      obtain ⟨k0, v0⟩ := hd
      rw [mapSet_cons]
      by_cases hk : k0 = k
      · rw [if_pos hk, mapGet_cons, if_neg (Ne.symm hne), mapGet_cons,
          if_neg (fun h => (Ne.symm hne) (hk.symm.trans h))]
      · rw [if_neg hk, mapGet_cons, mapGet_cons]
        by_cases hq : k0 = q
        · rw [if_pos hq, if_pos hq]
        · rw [if_neg hq, if_neg hq]
          exact ih k q v hne

theorem mem_keysOf_mapSet :
    ∀ (m : List (String × MutableSummary)) (k : String) (v : MutableSummary) (x : String),
      x ∈ keysOf (mapSet m k v) ↔ x ∈ keysOf m ∨ x = k := by
  intro m
  induction m with
  | nil => intro k v x; simp [mapSet_nil, keysOf_cons, keysOf_nil]
  | cons hd t ih =>
      intro k v x
      obtain ⟨k0, v0⟩ := hd
      rw [mapSet_cons]
      by_cases hk : k0 = k
      · subst hk
        rw [if_pos rfl, keysOf_cons, keysOf_cons]
        simp only [List.mem_cons]
        tauto
      · rw [if_neg hk, keysOf_cons, keysOf_cons]
        simp only [List.mem_cons, ih]
        tauto

theorem mem_keysOf_of_mem :
    ∀ (m : List (String × MutableSummary)) (k : String) (v : MutableSummary),
      (k, v) ∈ m → k ∈ keysOf m := by
  intro m k v h
  simpa [keysOf] using List.mem_map_of_mem (fun e => e.1) h

theorem nodup_keysOf_mapSet :
    ∀ (m : List (String × MutableSummary)) (k : String) (v : MutableSummary),
      (keysOf m).Nodup → (keysOf (mapSet m k v)).Nodup := by
  intro m
  induction m with
  | nil => intro k v _; simp [mapSet_nil, keysOf_cons, keysOf_nil]
  | cons hd t ih =>
      intro k v h
      obtain ⟨k0, v0⟩ := hd
      rw [keysOf_cons, List.nodup_cons] at h
      obtain ⟨h1, h2⟩ := h
      rw [mapSet_cons]
      by_cases hk : k0 = k
      · subst hk
        rw [if_pos rfl, keysOf_cons, List.nodup_cons]
        exact ⟨h1, h2⟩
      · rw [if_neg hk, keysOf_cons, List.nodup_cons]
        refine ⟨fun hmem => ?_, ih k v h2⟩
        rcases (mem_keysOf_mapSet t k v k0).1 hmem with hin | heq
        · exact h1 hin
        · exact hk heq

theorem mapGet_eq_none_iff :
    ∀ (m : List (String × MutableSummary)) (k : String),
      mapGet m k = none ↔ k ∉ keysOf m := by
  intro m
  induction m with
  | nil => intro k; simp [mapGet_nil, keysOf_nil]
  | cons hd t ih =>
      intro k
      obtain ⟨k0, v0⟩ := hd
      rw [mapGet_cons, keysOf_cons]
      by_cases hk : k0 = k
      · subst hk
        simp
      · rw [if_neg hk, ih k]
        simp only [List.mem_cons]
        constructor
        · intro hnot hor
          rcases hor with heq | hin
          · exact hk heq.symm
          · exact hnot hin
        · intro hnot hin
          exact hnot (Or.inr hin)

theorem mapGet_mem :
    ∀ (m : List (String × MutableSummary)) (k : String) (v : MutableSummary),
      mapGet m k = some v → (k, v) ∈ m := by
  intro m
  induction m with
  | nil => intro k v h; simp [mapGet_nil] at h
  | cons hd t ih =>
      intro k v h
      obtain ⟨k0, v0⟩ := hd
      rw [mapGet_cons] at h
      by_cases hk : k0 = k
      · rw [if_pos hk] at h
        obtain rfl : v0 = v := by injection h
        subst hk
        exact List.mem_cons_self _ _
      · rw [if_neg hk] at h
        exact List.mem_cons_of_mem _ (ih k v h)

theorem mem_mapGet :
    ∀ (m : List (String × MutableSummary)), (keysOf m).Nodup →
      ∀ (k : String) (v : MutableSummary), (k, v) ∈ m → mapGet m k = some v := by
  intro m
  induction m with
  | nil => intro _ k v h; simp at h
  | cons hd t ih =>
      intro hnd k v h
      obtain ⟨k0, v0⟩ := hd
      rw [keysOf_cons, List.nodup_cons] at hnd
      obtain ⟨h1, h2⟩ := hnd
      rw [List.mem_cons] at h
      rw [mapGet_cons]
      rcases h with heq | hin
      · simp only [Prod.mk.injEq] at heq
        obtain ⟨rfl, rfl⟩ := heq
        rw [if_pos rfl]
      · have hkmem : k ∈ keysOf t := mem_keysOf_of_mem t k v hin
        have hk : k0 ≠ k := fun he => h1 (he ▸ hkmem)
        rw [if_neg hk]
        exact ih h2 k v hin

theorem progressOf_append (P : List WatchProgressRecord) (r : WatchProgressRecord)
    (u : String) :
    progressOf (P ++ [r]) u = progressOf P u ++ if r.studentId = u then [r] else [] := by
  by_cases h : r.studentId = u <;>
    simp [progressOf, List.filter_append, List.filter_cons, h]

theorem submissionsOf_append (S : List Submission) (s : Submission) (u : String) :
    submissionsOf (S ++ [s]) u =
      submissionsOf S u ++ if s.studentId = u then [s] else [] := by
  by_cases h : s.studentId = u <;>
    simp [submissionsOf, List.filter_append, List.filter_cons, h]

theorem totalWatchOf_append_of_eq (P : List WatchProgressRecord)
    (r : WatchProgressRecord) (u : String) (h : r.studentId = u) :
    totalWatchOf (P ++ [r]) u = totalWatchOf P u + r.watchTime := by
  simp [totalWatchOf, progressOf_append, h]

theorem totalWatchOf_append_of_ne (P : List WatchProgressRecord)
    (r : WatchProgressRecord) (u : String) (h : ¬ r.studentId = u) :
    totalWatchOf (P ++ [r]) u = totalWatchOf P u := by
  simp [totalWatchOf, progressOf_append, h]

theorem completedOf_append_of_eq (P : List WatchProgressRecord)
    (r : WatchProgressRecord) (u : String) (h : r.studentId = u) :
    completedOf (P ++ [r]) u = completedOf P u + if r.completed then 1 else 0 := by
  by_cases hc : r.completed <;>
    simp [completedOf, progressOf_append, h, List.filter_append, List.filter_cons, hc]

theorem completedOf_append_of_ne (P : List WatchProgressRecord)
    (r : WatchProgressRecord) (u : String) (h : ¬ r.studentId = u) :
    completedOf (P ++ [r]) u = completedOf P u := by
  simp [completedOf, progressOf_append, h]

theorem progressOf_append_of_ne (P : List WatchProgressRecord)
    (r : WatchProgressRecord) (u : String) (h : ¬ r.studentId = u) :
    progressOf (P ++ [r]) u = progressOf P u := by
  simp [progressOf_append, h]

theorem submissionsOf_append_of_ne (S : List Submission) (s : Submission)
    (u : String) (h : ¬ s.studentId = u) :
    submissionsOf (S ++ [s]) u = submissionsOf S u := by
  simp [submissionsOf_append, h]

theorem scoresOf_append_of_eq (S : List Submission) (s : Submission) (u : String)
    (h : s.studentId = u) :
    scoresOf (S ++ [s]) u = scoresOf S u ++ s.score.toList := by
  rcases hs : s.score with _ | sc <;>
    simp [scoresOf, submissionsOf_append, h, List.filterMap_append,
      List.filterMap_cons, hs]

theorem scoresOf_append_of_ne (S : List Submission) (s : Submission) (u : String)
    (h : ¬ s.studentId = u) :
    scoresOf (S ++ [s]) u = scoresOf S u := by
  simp [scoresOf, submissionsOf_append, h]

/-- The invariant tying the summaries map to the progress records `P` and
submissions `S` already folded in: keys are distinct, each entry aggregates
exactly its student's records, and absent students have no records. -/
def SummaryInv (P : List WatchProgressRecord) (S : List Submission)
    (m : List (String × MutableSummary)) : Prop :=
  (keysOf m).Nodup ∧
  (∀ (u : String) (e : MutableSummary), mapGet m u = some e →
    e.userId = u ∧
    e.totalWatchTime = totalWatchOf P u ∧
    e.videosCompleted = completedOf P u ∧
    e.assignmentsSubmitted = (submissionsOf S u).length ∧
    e.totalScore = (scoresOf S u).sum ∧
    e.gradedCount = (scoresOf S u).length ∧
    (progressOf P u ≠ [] ∨ submissionsOf S u ≠ [])) ∧
  (∀ u : String, mapGet m u = none → progressOf P u = [] ∧ submissionsOf S u = [])

theorem summaryInv_nil : SummaryInv [] [] [] := by
  refine ⟨by simp [keysOf_nil], ?_, ?_⟩
  · intro u e he
    rw [mapGet_nil] at he
    cases he
  · intro u _
    simp [progressOf, submissionsOf]

theorem summaryInv_progressStep (P : List WatchProgressRecord)
    (m : List (String × MutableSummary)) (r : WatchProgressRecord)
    (h : SummaryInv P [] m) : SummaryInv (P ++ [r]) [] (progressStep m r) := by
  obtain ⟨hnd, hsome, hnone⟩ := h
  refine ⟨nodup_keysOf_mapSet m r.studentId _ hnd, ?_, ?_⟩
  · intro u e he
    rw [progressStep] at he
    by_cases hu : r.studentId = u
    · subst hu
      rw [mapGet_mapSet_self] at he
      obtain rfl : progressEntry m r = e := by injection he
      rcases hm : mapGet m r.studentId with _ | e0
      · obtain ⟨hp, _⟩ := hnone r.studentId hm
        have hw : totalWatchOf P r.studentId = 0 := by simp [totalWatchOf, hp]
        have hc : completedOf P r.studentId = 0 := by simp [completedOf, hp]
        refine ⟨?_, ?_, ?_, ?_, ?_, ?_, ?_⟩
        · simp [progressEntry, hm, emptySummaryOfProgress]
        · rw [totalWatchOf_append_of_eq P r r.studentId rfl, hw]
          simp [progressEntry, hm, emptySummaryOfProgress]
        · rw [completedOf_append_of_eq P r r.studentId rfl, hc]
          simp [progressEntry, hm, emptySummaryOfProgress]
        · simp [progressEntry, hm, emptySummaryOfProgress, submissionsOf]
        · simp [progressEntry, hm, emptySummaryOfProgress, scoresOf, submissionsOf]
        · simp [progressEntry, hm, emptySummaryOfProgress, scoresOf, submissionsOf]
        · left
          rw [progressOf_append P r r.studentId, if_pos rfl]
          simp
      · obtain ⟨he0id, he0w, he0c, he0a, he0s, he0g, _⟩ := hsome r.studentId e0 hm
        refine ⟨?_, ?_, ?_, ?_, ?_, ?_, ?_⟩
        · simp [progressEntry, hm, he0id]
        · rw [totalWatchOf_append_of_eq P r r.studentId rfl]
          simp [progressEntry, hm, he0w]
        · rw [completedOf_append_of_eq P r r.studentId rfl]
          simp [progressEntry, hm, he0c]
        · simp [progressEntry, hm, he0a]
        · simp [progressEntry, hm, he0s]
        · simp [progressEntry, hm, he0g]
        · left
          rw [progressOf_append P r r.studentId, if_pos rfl]
          simp
    · rw [mapGet_mapSet_ne m r.studentId u _ (fun hq => hu hq.symm)] at he
      obtain ⟨heid, hew, hec, hea, hes, heg, hne⟩ := hsome u e he
      rw [totalWatchOf_append_of_ne P r u hu, completedOf_append_of_ne P r u hu,
        progressOf_append_of_ne P r u hu]
      exact ⟨heid, hew, hec, hea, hes, heg, hne⟩
  · intro u he
    rw [progressStep] at he
    by_cases hu : r.studentId = u
    · subst hu
      rw [mapGet_mapSet_self] at he
      cases he
    · rw [mapGet_mapSet_ne m r.studentId u _ (fun hq => hu hq.symm)] at he
      obtain ⟨hp, hs⟩ := hnone u he
      rw [progressOf_append_of_ne P r u hu]
      exact ⟨hp, hs⟩

theorem summaryInv_submissionStep (P : List WatchProgressRecord) (S : List Submission)
    (m : List (String × MutableSummary)) (s : Submission)
    (h : SummaryInv P S m) : SummaryInv P (S ++ [s]) (submissionStep m s) := by
  obtain ⟨hnd, hsome, hnone⟩ := h
  refine ⟨nodup_keysOf_mapSet m s.studentId _ hnd, ?_, ?_⟩
  · intro u e he
    rw [submissionStep] at he
    by_cases hu : s.studentId = u
    · subst hu
      rw [mapGet_mapSet_self] at he
      obtain rfl : submissionEntry m s = e := by injection he
      have hsub : submissionsOf (S ++ [s]) s.studentId =
          submissionsOf S s.studentId ++ [s] := by
        rw [submissionsOf_append, if_pos rfl]
      have hsc : scoresOf (S ++ [s]) s.studentId =
          scoresOf S s.studentId ++ s.score.toList :=
        scoresOf_append_of_eq S s s.studentId rfl
      rcases hm : mapGet m s.studentId with _ | e0
      · obtain ⟨hp, hs0⟩ := hnone s.studentId hm
        have hsc0 : scoresOf S s.studentId = [] := by simp [scoresOf, hs0]
        have hw : totalWatchOf P s.studentId = 0 := by simp [totalWatchOf, hp]
        have hc : completedOf P s.studentId = 0 := by simp [completedOf, hp]
        rcases hscore : s.score with _ | sc <;>
          simp [submissionEntry, hm, hscore, emptySummaryOfSubmission, hsub, hsc,
            hsc0, hs0, hw, hc]
      · obtain ⟨he0id, he0w, he0c, he0a, he0s, he0g, _⟩ := hsome s.studentId e0 hm
        rcases hscore : s.score with _ | sc <;>
          simp [submissionEntry, hm, hscore, hsub, hsc, he0id, he0w, he0c, he0a,
            he0s, he0g]
    · rw [mapGet_mapSet_ne m s.studentId u _ (fun hq => hu hq.symm)] at he
      obtain ⟨heid, hew, hec, hea, hes, heg, hne⟩ := hsome u e he
      rw [submissionsOf_append_of_ne S s u hu, scoresOf_append_of_ne S s u hu]
      exact ⟨heid, hew, hec, hea, hes, heg, hne⟩
  · intro u he
    rw [submissionStep] at he
    by_cases hu : s.studentId = u
    · subst hu
      rw [mapGet_mapSet_self] at he
      cases he
    · rw [mapGet_mapSet_ne m s.studentId u _ (fun hq => hu hq.symm)] at he
      obtain ⟨hp, hs⟩ := hnone u he
      rw [submissionsOf_append_of_ne S s u hu]
      exact ⟨hp, hs⟩

theorem summaryInv_foldl_progress :
    ∀ (L P : List WatchProgressRecord) (m : List (String × MutableSummary)),
      SummaryInv P [] m → SummaryInv (P ++ L) [] (L.foldl progressStep m) := by
  intro L
  induction L with
  | nil => intro P m h; simpa using h
  | cons r L ih =>
      intro P m h
      have h2 := ih (P ++ [r]) (progressStep m r) (summaryInv_progressStep P m r h)
      rw [List.foldl_cons]
      simpa [List.append_assoc] using h2

theorem summaryInv_foldl_submission (P : List WatchProgressRecord) :
    ∀ (L S : List Submission) (m : List (String × MutableSummary)),
      SummaryInv P S m → SummaryInv P (S ++ L) (L.foldl submissionStep m) := by
  intro L
  induction L with
  | nil => intro S m h; simpa using h
  | cons s L ih =>
      intro S m h
      have h2 := ih (S ++ [s]) (submissionStep m s) (summaryInv_submissionStep P S m s h)
      rw [List.foldl_cons]
      simpa [List.append_assoc] using h2

/-- The invariant holds of the finished map built by buildSummary. -/
theorem summaryInv_buildSummary (progress : List WatchProgressRecord)
    (submissions : List Submission) (days now : Int) :
    SummaryInv (inWindowProgress (windowStart now days) progress)
      (inWindowSubmissions (windowStart now days) submissions)
      ((inWindowSubmissions (windowStart now days) submissions).foldl submissionStep
        ((inWindowProgress (windowStart now days) progress).foldl progressStep [])) := by
  have h1 := summaryInv_foldl_progress (inWindowProgress (windowStart now days) progress)
    [] [] summaryInv_nil
  rw [List.nil_append] at h1
  have h2 := summaryInv_foldl_submission (inWindowProgress (windowStart now days) progress)
    (inWindowSubmissions (windowStart now days) submissions) []
    ((inWindowProgress (windowStart now days) progress).foldl progressStep []) h1
  rw [List.nil_append] at h2
  exact h2

theorem progressOf_ne_nil_iff (l : List WatchProgressRecord) (u : String) :
    progressOf l u ≠ [] ↔ ∃ r ∈ l, r.studentId = u := by
  constructor
  · intro h
    rcases List.exists_mem_of_ne_nil _ h with ⟨r, hr⟩
    rw [progressOf, List.mem_filter] at hr
    exact ⟨r, hr.1, by simpa using hr.2⟩
  · rintro ⟨r, hrl, hru⟩ hnil
    have hmem : r ∈ progressOf l u := by
      rw [progressOf, List.mem_filter]
      exact ⟨hrl, by simpa using hru⟩
    rw [hnil] at hmem
    simp at hmem

theorem submissionsOf_ne_nil_iff (l : List Submission) (u : String) :
    submissionsOf l u ≠ [] ↔ ∃ s ∈ l, s.studentId = u := by
  constructor
  · intro h
    rcases List.exists_mem_of_ne_nil _ h with ⟨s, hs⟩
    rw [submissionsOf, List.mem_filter] at hs
    exact ⟨s, hs.1, by simpa using hs.2⟩
  · rintro ⟨s, hsl, hsu⟩ hnil
    have hmem : s ∈ submissionsOf l u := by
      rw [submissionsOf, List.mem_filter]
      exact ⟨hsl, by simpa using hsu⟩
    rw [hnil] at hmem
    simp at hmem

/-- Any map satisfying the invariant finalizes to rows with the claimed
per-student aggregates. -/
theorem summary_rows_spec (P : List WatchProgressRecord) (S : List Submission)
    (m : List (String × MutableSummary)) (h : SummaryInv P S m) :
    ((m.map (fun e => finalizeSummary e.2)).map (fun row => row.userId)).Nodup ∧
    (∀ u : String,
      (∃ row ∈ m.map (fun e => finalizeSummary e.2), row.userId = u) ↔
        ((∃ r ∈ P, r.studentId = u) ∨ (∃ s ∈ S, s.studentId = u))) ∧
    (∀ row ∈ m.map (fun e => finalizeSummary e.2),
      row.totalWatchTime = totalWatchOf P row.userId ∧
      row.videosCompleted = completedOf P row.userId ∧
      row.assignmentsSubmitted = (submissionsOf S row.userId).length ∧
      row.averageScore =
        if scoresOf S row.userId = [] then none
        else some (roundTo2 ((scoresOf S row.userId).sum /
          ((scoresOf S row.userId).length : ℚ)))) := by
  obtain ⟨hnd, hsome, hnone⟩ := h
  have hids : ∀ p ∈ m, (finalizeSummary (Prod.snd p)).userId = p.1 := by
    intro p hp
    have hg : mapGet m p.1 = some p.2 := mem_mapGet m hnd p.1 p.2 hp
    simpa [finalizeSummary] using (hsome p.1 p.2 hg).1
  refine ⟨?_, ?_, ?_⟩
  · rw [List.map_map]
    have h2 : m.map ((fun row => row.userId) ∘ (fun e => finalizeSummary e.2)) =
        keysOf m :=
      List.map_congr_left (fun p hp => hids p hp)
    rw [h2]
    exact hnd
  · intro u
    constructor
    · rintro ⟨row, hrow, hu⟩
      rcases List.mem_map.1 hrow with ⟨p, hp, rfl⟩
      have hg : mapGet m p.1 = some p.2 := mem_mapGet m hnd p.1 p.2 hp
      have hpu : p.1 = u := by rw [← hids p hp, hu]
      subst hpu
      obtain ⟨_, _, _, _, _, _, hne⟩ := hsome p.1 p.2 hg
      rcases hne with hp' | hs'
      · exact Or.inl ((progressOf_ne_nil_iff P p.1).1 hp')
      · exact Or.inr ((submissionsOf_ne_nil_iff S p.1).1 hs')
    · intro hex
      have hnn : ¬ (progressOf P u = [] ∧ submissionsOf S u = []) := by
        rcases hex with ⟨r, hr, hru⟩ | ⟨s, hs, hsu⟩
        · exact fun hc => ((progressOf_ne_nil_iff P u).2 ⟨r, hr, hru⟩) hc.1
        · exact fun hc => ((submissionsOf_ne_nil_iff S u).2 ⟨s, hs, hsu⟩) hc.2
      rcases hget : mapGet m u with _ | e
      · exact absurd (hnone u hget) hnn
      · refine ⟨finalizeSummary e,
          List.mem_map.2 ⟨(u, e), mapGet_mem m u e hget, rfl⟩, ?_⟩
        simpa [finalizeSummary] using (hsome u e hget).1
  · intro row hrow
    rcases List.mem_map.1 hrow with ⟨p, hp, rfl⟩
    have hg : mapGet m p.1 = some p.2 := mem_mapGet m hnd p.1 p.2 hp
    obtain ⟨hid, hw, hc, ha, hts, htg, _⟩ := hsome p.1 p.2 hg
    have hid2 : (finalizeSummary p.2).userId = p.1 := by
      simpa [finalizeSummary] using hid
    rw [hid2]
    refine ⟨?_, ?_, ?_, ?_⟩
    · simpa [finalizeSummary] using hw
    · simpa [finalizeSummary] using hc
    · simpa [finalizeSummary] using ha
    · by_cases hsc : scoresOf S p.1 = []
      · simp [finalizeSummary, htg, hsc]
      · have hlen : 0 < (scoresOf S p.1).length := List.length_pos.2 hsc
        simp [finalizeSummary, htg, hts, hsc, hlen]

/-- C1: buildSummary produces one row per student appearing in an in-window
record (row userIds are distinct, and a row for student u exists exactly when
u has an in-window progress record or an in-window submission); only progress
records with lastWatchedAt in the trailing days-day window and submissions
with submittedAt in that window are counted; each row's totalWatchTime is the
sum of watchTime over that student's in-window progress records,
videosCompleted counts their in-window records with completed = true,
assignmentsSubmitted counts their in-window submissions, and averageScore is
the mean of the numeric scores of their in-window submissions rounded to two
decimal places when at least one carries a numeric score, and none otherwise.
`now` is the clock reading and the window is the set of timestamps at or
after `windowStart now days`, matching the source's `>= start` filters. -/
theorem C1_buildSummary_correct (progress : List WatchProgressRecord)
    (submissions : List Submission) (days now : Int) :
    ((buildSummary progress submissions days now).map (fun row => row.userId)).Nodup ∧
    (∀ u : String,
      (∃ row ∈ buildSummary progress submissions days now, row.userId = u) ↔
        ((∃ r ∈ inWindowProgress (windowStart now days) progress, r.studentId = u) ∨
          (∃ s ∈ inWindowSubmissions (windowStart now days) submissions,
            s.studentId = u))) ∧
    (∀ row ∈ buildSummary progress submissions days now,
      row.totalWatchTime =
        totalWatchOf (inWindowProgress (windowStart now days) progress) row.userId ∧
      row.videosCompleted =
        completedOf (inWindowProgress (windowStart now days) progress) row.userId ∧
      row.assignmentsSubmitted =
        (submissionsOf (inWindowSubmissions (windowStart now days) submissions)
          row.userId).length ∧
      row.averageScore =
        if scoresOf (inWindowSubmissions (windowStart now days) submissions)
            row.userId = [] then none
        else some (roundTo2
          ((scoresOf (inWindowSubmissions (windowStart now days) submissions)
              row.userId).sum /
            ((scoresOf (inWindowSubmissions (windowStart now days) submissions)
              row.userId).length : ℚ)))) :=
  summary_rows_spec (inWindowProgress (windowStart now days) progress)
    (inWindowSubmissions (windowStart now days) submissions)
    ((inWindowSubmissions (windowStart now days) submissions).foldl submissionStep
      ((inWindowProgress (windowStart now days) progress).foldl progressStep []))
    (summaryInv_buildSummary progress submissions days now)

/-- The update written by handleGradeSubmission: exactly the four fields
passed to updateDoc (gradedAt is the serverTimestamp at write time). -/
structure GradeWrite where
  submissionId : String
  score : ℚ
  feedback : String
  gradedBy : String
  deriving DecidableEq

/-- The observable outcome of TeacherPage's handleGradeSubmission. -/
inductive GradeResult where
  | noop : GradeResult
  | alertInvalidScore : GradeResult
  | write : GradeWrite → GradeResult
  deriving DecidableEq

/-- TeacherPage's handleGradeSubmission. `parsedScore` stands for
`parseFloat(gradingScore)`, with `none` for NaN. -/
def handleGradeSubmission (currentUser : Option User) (gradingSubmission : Option String)
    (parsedScore : Option ℚ) (gradingFeedback : String) : GradeResult :=
  match currentUser, gradingSubmission with
  | some u, some sid =>
      match parsedScore with
      | none => .alertInvalidScore
      | some numericScore =>
          if numericScore < 0 ∨ numericScore > 10 then .alertInvalidScore
          else .write ⟨sid, numericScore, gradingFeedback, u.id⟩
  | _, _ => .noop

/-- Applying a grade write to a submission document: updateDoc sets exactly
score, feedback, gradedAt and gradedBy. -/
def applyGradeWrite (sub : Submission) (w : GradeWrite) (now : Int) : Submission :=
  { sub with
    score := some w.score
    feedback := some w.feedback
    gradedAt := some now
    gradedBy := some w.gradedBy }

/-- The watchProgress document id `${currentUser.id}_${selectedVideo.id}`
(StudentPage, saveProgress and the progress subscription). -/
def progressDocId (userId videoId : String) : String := userId ++ "_" ++ videoId

/-- The watchProgress document written by StudentPage's saveProgress. -/
structure WatchProgressDoc where
  id : String
  studentId : String
  studentName : String
  studentEmail : String
  videoId : String
  videoTitle : String
  teacherId : String
  watchTime : ℚ
  completed : Bool
  lastWatchedAt : Int
  deriving DecidableEq

/-- The document saveProgress writes for user `u`, video `v` and `watchTime`;
`now` is the serverTimestamp. -/
def saveProgressDoc (u : User) (v : Video) (watchTime : ℚ) (now : Int) :
    WatchProgressDoc :=
  { id := progressDocId u.id v.id
    studentId := u.id
    studentName := u.name
    studentEmail := u.email
    videoId := v.id
    videoTitle := v.title
    teacherId := v.teacherId
    watchTime := watchTime
    completed := if v.duration > 0 then decide (watchTime ≥ v.duration) else false
    lastWatchedAt := now }

/-- saveProgress with its guard: without a signed-in user and a selected
video nothing is written; otherwise the single write targets the document
keyed by progressDocId. -/
def saveProgressWrite (currentUser : Option User) (selectedVideo : Option Video)
    (watchTime : ℚ) (now : Int) : Option (String × WatchProgressDoc) :=
  match currentUser, selectedVideo with
  | some u, some v => some (progressDocId u.id v.id, saveProgressDoc u v watchTime now)
  | _, _ => none

/-- A keyed document store: setDoc stores the document at its key, replacing
any previous document there. -/
def setProgressDoc (store : String → Option WatchProgressDoc) (k : String)
    (d : WatchProgressDoc) : String → Option WatchProgressDoc :=
  fun q => if q = k then some d else store q

/-- The store after saveProgress runs once for user `u` and video `v`. -/
def saveProgressRun (store : String → Option WatchProgressDoc) (u : User) (v : Video)
    (watchTime : ℚ) (now : Int) : String → Option WatchProgressDoc :=
  setProgressDoc store (progressDocId u.id v.id) (saveProgressDoc u v watchTime now)

/-- The store after a sequence of saveProgress calls for the same user and
video (each pair is the watch time and the serverTimestamp of one call). -/
def runSaves (store : String → Option WatchProgressDoc) (u : User) (v : Video)
    (saves : List (ℚ × Int)) : String → Option WatchProgressDoc :=
  saves.foldl (fun st p => saveProgressRun st u v p.1 p.2) store

/-- StudentPage's local player-sync state: the displayed current watch time
and the last watch time synced to the backend
(lastSyncedWatchTimeRef.current). -/
structure PlayerSyncState where
  currentWatchTime : ℚ
  lastSyncedWatchTime : ℚ
  deriving DecidableEq

/-- StudentPage's handleProgressUpdate: always records the reported time in
local state; only with a signed-in user and a selected video, and when the
reported time is at least 5 seconds past the last synced time, does it move
the sync reference and call saveProgress. The Option carries the watch time
passed to saveProgress (`none` means no backend write). -/
def handleProgressUpdate (hasUserAndVideo : Bool) (st : PlayerSyncState) (time : ℚ) :
    PlayerSyncState × Option ℚ :=
  let st1 := { st with currentWatchTime := time }
  if !hasUserAndVideo then (st1, none)
  else if time - st.lastSyncedWatchTime < 5 then (st1, none)
  else ({ currentWatchTime := time, lastSyncedWatchTime := time }, some time)

/-- The submission document written by StudentPage's handleSubmitAssignment. -/
structure SubmissionDoc where
  id : String
  assignmentId : String
  studentId : String
  studentName : String
  studentEmail : String
  content : String
  attachments : List SubmissionAttachment
  audioUrl : Option String
  audioStoragePath : Option String
  submittedAt : Int
  teacherId : String
  deriving DecidableEq

/-- The observable outcome of handleSubmitAssignment. -/
inductive SubmitResult where
  | noop : SubmitResult
  | alertNotFound : SubmitResult
  | alertUploadError : SubmitResult
  | write : SubmissionDoc → SubmitResult
  deriving DecidableEq

/-- StudentPage's handleSubmitAssignment. The storage uploads are abstracted:
`attachments`, `audioUrl` and `audioStoragePath` are the artifacts the
uploads produced, and `uploadsOk` is whether every upload succeeded (a failed
upload lands in the catch block, so no document is written). `docId` is the
fresh Firestore document id and `now` the serverTimestamp. -/
def handleSubmitAssignment (currentUser : Option User) (assignments : List Assignment)
    (assignmentId : String) (content : String)
    (attachments : List SubmissionAttachment) (audioUrl audioStoragePath : Option String)
    (docId : String) (now : Int) (uploadsOk : Bool) : SubmitResult :=
  match currentUser with
  | none => .noop
  | some u =>
      match assignments.find? (fun a => decide (a.id = assignmentId)) with
      | none => .alertNotFound
      | some assignment =>
          if uploadsOk then
            .write
              { id := docId
                assignmentId := assignmentId
                studentId := u.id
                studentName := u.name
                studentEmail := u.email
                content := content
                attachments := attachments
                audioUrl := audioUrl
                audioStoragePath := audioStoragePath
                submittedAt := now
                teacherId := assignment.teacherId }
          else .alertUploadError

/-- A JavaScript value as classified by toDate; `vNumber`/`vString`/`vBool`
cover the primitive falsy values, `vDate` a Date holding a timestamp, and
`vTimestamp` a backend Timestamp object whose toDate() yields a timestamp. -/
inductive JSValue where
  | vNull : JSValue
  | vUndefined : JSValue
  | vNumber : ℚ → JSValue
  | vString : String → JSValue
  | vBool : Bool → JSValue
  | vDate : Int → JSValue
  | vTimestamp : Int → JSValue
  deriving DecidableEq

/-- JS truthiness: `!value` holds for null, undefined, 0, the empty string
and false. -/
def isFalsy : JSValue → Bool
  | .vNull => true
  | .vUndefined => true
  | .vNumber q => decide (q = 0)
  | .vString s => decide (s = "")
  | .vBool b => !b
  | .vDate _ => false
  | .vTimestamp _ => false

/-- The shared toDate helper (TeacherPage and StudentPage): falsy values give
the current date `now`, a Date is returned unchanged, a Timestamp is
converted via its toDate method, anything else goes through the Date
constructor `dateCtor` (the browser's `new Date(value)`). -/
def toDate (now : Int) (dateCtor : JSValue → Int) (value : JSValue) : Int :=
  if isFalsy value then now
  else
    match value with
    | .vDate ms => ms
    | .vTimestamp ms => ms
    | other => dateCtor other

/-- The assignment form's local state (components/Assignment): the answer
text, the recorded audio blob (modelled by its object URL) with its file
name, and the selected files (by name). -/
structure AssignmentFormState where
  content : String
  audioBlob : Option String
  audioFileName : Option String
  selectedFiles : List String
  deriving DecidableEq

/-- The payload handed to onSubmit (components/Assignment,
AssignmentSubmissionPayload). -/
structure AssignmentSubmissionPayload where
  content : String
  files : List String
  audioBlob : Option String
  audioFileName : Option String
  deriving DecidableEq

/-- The assignment form's handleSubmit: with blank trimmed text, no audio
blob and no selected files it alerts and submits nothing (the state is kept);
otherwise it invokes onSubmit with the payload (`some`) and resets the text,
recording and file selection. -/
def formHandleSubmit (st : AssignmentFormState) :
    AssignmentFormState × Option AssignmentSubmissionPayload :=
  if st.content.trim = "" ∧ st.audioBlob = none ∧ st.selectedFiles = [] then
    (st, none)
  else
    ({ content := "", audioBlob := none, audioFileName := none, selectedFiles := [] },
      some ⟨st.content, st.selectedFiles, st.audioBlob, st.audioFileName⟩)

/-- The backend calls issued inside the try blocks of the four write
handlers. File uploads are numbered by their position in payload.files. -/
inductive BackendCall where
  | videoUpload : BackendCall
  | videoGetUrl : BackendCall
  | videoSetDoc : BackendCall
  | assignmentAddDoc : BackendCall
  | assignmentUpdateDoc : BackendCall
  | gradeUpdateDoc : BackendCall
  | submissionFileUpload : Nat → BackendCall
  | submissionAudioUpload : BackendCall
  | submissionSetDoc : BackendCall
  deriving DecidableEq

/-- How a handler run ends on the user's screen. Guard failures alert without
touching the backend; an exception inside the try block lands in the catch,
which alerts; otherwise the handler alerts success. Silent early returns
(grading with no open submission, submitting with no user) alert nothing. -/
inductive AlertKind where
  | noAlert : AlertKind
  | validationAlert : AlertKind
  | successAlert : AlertKind
  | failureAlert : AlertKind
  deriving DecidableEq

/-- handleUploadVideo's backend trace (TeacherPage): guard, then the storage
upload, getDownloadURL and setDoc sequentially inside one try/catch; each
entry records whether that call succeeded, and an exception skips the rest. -/
def uploadVideoTrace (inputsValid uploadOk urlOk setOk : Bool) :
    List (BackendCall × Bool) × AlertKind :=
  if !inputsValid then ([], .validationAlert)
  else if !uploadOk then ([(.videoUpload, false)], .failureAlert)
  else if !urlOk then ([(.videoUpload, true), (.videoGetUrl, false)], .failureAlert)
  else if !setOk then
    ([(.videoUpload, true), (.videoGetUrl, true), (.videoSetDoc, false)], .failureAlert)
  else ([(.videoUpload, true), (.videoGetUrl, true), (.videoSetDoc, true)], .successAlert)

/-- handleCreateAssignment's backend trace (TeacherPage): guard, video
lookup, then addDoc and updateDoc inside one try/catch. -/
def createAssignmentTrace (inputsValid videoFound addOk updOk : Bool) :
    List (BackendCall × Bool) × AlertKind :=
  if !inputsValid then ([], .validationAlert)
  else if !videoFound then ([], .validationAlert)
  else if !addOk then ([(.assignmentAddDoc, false)], .failureAlert)
  else if !updOk then
    ([(.assignmentAddDoc, true), (.assignmentUpdateDoc, false)], .failureAlert)
  else ([(.assignmentAddDoc, true), (.assignmentUpdateDoc, true)], .successAlert)

/-- handleGradeSubmission's backend trace (TeacherPage): silent early return,
score validation alert, then one updateDoc inside try/catch. -/
def gradeTrace (guardsOk scoreValid updOk : Bool) :
    List (BackendCall × Bool) × AlertKind :=
  if !guardsOk then ([], .noAlert)
  else if !scoreValid then ([], .validationAlert)
  else if !updOk then ([(.gradeUpdateDoc, false)], .failureAlert)
  else ([(.gradeUpdateDoc, true)], .successAlert)

/-- The attachment upload loop of handleSubmitAssignment: files are uploaded
in order and the first failing upload throws, skipping the rest. The Bool
result is whether the loop completed. -/
def uploadFilesTrace : Nat → List Bool → List (BackendCall × Bool) × Bool
  | _, [] => ([], true)
  | i, ok :: rest =>
      if ok then
        ((BackendCall.submissionFileUpload i, true) :: (uploadFilesTrace (i + 1) rest).1,
          (uploadFilesTrace (i + 1) rest).2)
      else ([(BackendCall.submissionFileUpload i, false)], false)

/-- handleSubmitAssignment's backend trace (StudentPage): silent return
without a user, alert when the assignment is missing, then the file uploads,
the optional audio upload and the setDoc inside one try/catch. -/
def submitTrace (userOk assignmentFound : Bool) (fileResults : List Bool)
    (hasAudio audioOk setOk : Bool) : List (BackendCall × Bool) × AlertKind :=
  if !userOk then ([], .noAlert)
  else if !assignmentFound then ([], .validationAlert)
  else if !(uploadFilesTrace 0 fileResults).2 then
    ((uploadFilesTrace 0 fileResults).1, .failureAlert)
  else if hasAudio && !audioOk then
    ((uploadFilesTrace 0 fileResults).1 ++ [(.submissionAudioUpload, false)],
      .failureAlert)
  else if !setOk then
    ((uploadFilesTrace 0 fileResults).1 ++
        (if hasAudio then [(.submissionAudioUpload, true)] else []) ++
        [(.submissionSetDoc, false)],
      .failureAlert)
  else
    ((uploadFilesTrace 0 fileResults).1 ++
        (if hasAudio then [(.submissionAudioUpload, true)] else []) ++
        [(.submissionSetDoc, true)],
      .successAlert)

/-- A handler's trace is well behaved when no backend call follows a failed
one (every call but the last succeeded), the failure alert is shown exactly
when some call failed (the error is surfaced, never rethrown), and no call
site runs twice (no retry). -/
def WellBehavedTrace (t : List (BackendCall × Bool) × AlertKind) : Prop :=
  t.1.dropLast.all (fun c => c.2) = true ∧
  (t.2 = .failureAlert ↔ t.1.any (fun c => !c.2) = true) ∧
  (t.1.map (fun c => c.1)).Nodup

/-- A concrete progress record watched at timestamp 0, input of the
clock-dependence counterexample and of the purity witness. -/
def cexRecord : WatchProgressRecord :=
  { id := "p1"
    studentId := "s1"
    studentName := "Alice"
    studentEmail := "alice@mail"
    videoId := "v1"
    videoTitle := "Lesson 1"
    watchTime := 1
    completed := true
    lastWatchedAt := 0 }

/-- C2 counterexample: two buildSummary calls with equal progress lists,
equal submission lists and equal day counts, but clock readings 0 and
604800001 milliseconds (just past seven days), return different row lists
(one row versus none): the result depends on the clock, which is state
outside the three arguments. -/
theorem C2_buildSummary_clock_counterexample :
    (buildSummary [cexRecord] [] 7 0 = buildSummary [cexRecord] [] 7 604800001) =
      False := by
  have ha : buildSummary [cexRecord] [] 7 604800001 = [] := rfl
  have hb : (buildSummary [cexRecord] [] 7 0).length = 1 := rfl
  apply eq_false
  intro h
  rw [h, ha] at hb
  simp at hb

/-- C2 (amended): buildSummary reads no state outside its arguments except
the clock, and depends on the clock only through which records fall inside
the trailing window: two calls with equal progress lists, equal submission
lists and equal day counts whose clock readings put every progress record
and every submission on the same side of the window boundary return equal
summary rows. -/
theorem C2_buildSummary_pure (progress : List WatchProgressRecord)
    (submissions : List Submission) (days now1 now2 : Int)
    (hp : ∀ r ∈ progress,
      (windowStart now1 days ≤ r.lastWatchedAt ↔ windowStart now2 days ≤ r.lastWatchedAt))
    (hs : ∀ s ∈ submissions,
      (windowStart now1 days ≤ s.submittedAt ↔ windowStart now2 days ≤ s.submittedAt)) :
    buildSummary progress submissions days now1 =
      buildSummary progress submissions days now2 := by
  have h1 : inWindowProgress (windowStart now1 days) progress =
      inWindowProgress (windowStart now2 days) progress :=
    List.filter_congr (fun r hr => by simp [hp r hr])
  have h2 : inWindowSubmissions (windowStart now1 days) submissions =
      inWindowSubmissions (windowStart now2 days) submissions :=
    List.filter_congr (fun s hs0 => by simp [hs s hs0])
  simp only [buildSummary]
  rw [h1, h2]

/-- Witness for C2 (amended) at concrete inputs: clock readings 0 and 1
classify the single record identically, so the rows agree. -/
theorem C2_buildSummary_pure_witness :
    buildSummary [cexRecord] [] 7 0 = buildSummary [cexRecord] [] 7 1 :=
  C2_buildSummary_pure [cexRecord] [] 7 0 1 (by decide) (by decide)

/-- C3: handleGradeSubmission writes a grade exactly when the entered score
parses to a number s with 0 ≤ s ≤ 10; a NaN, negative or above-10 score
yields the alert and no write (so the submission is unchanged); the write
carries the graded submission id, the score, the feedback and the grader,
and applying it sets exactly score, feedback, gradedAt and gradedBy, leaving
every other submission field unchanged. -/
theorem C3_grade_validation (u : User) (sid : String) (parsedScore : Option ℚ)
    (feedback : String) (sub : Submission) (w : GradeWrite) (now : Int) :
    ((∃ w0 : GradeWrite,
        handleGradeSubmission (some u) (some sid) parsedScore feedback =
          GradeResult.write w0) ↔
      (∃ sc : ℚ, parsedScore = some sc ∧ 0 ≤ sc ∧ sc ≤ 10)) ∧
    (∀ sc : ℚ, parsedScore = some sc → ¬ (sc < 0 ∨ sc > 10) →
      handleGradeSubmission (some u) (some sid) parsedScore feedback =
        GradeResult.write ⟨sid, sc, feedback, u.id⟩) ∧
    (handleGradeSubmission (some u) (some sid) none feedback =
      GradeResult.alertInvalidScore) ∧
    (∀ sc : ℚ, sc < 0 ∨ sc > 10 →
      handleGradeSubmission (some u) (some sid) (some sc) feedback =
        GradeResult.alertInvalidScore) ∧
    ((applyGradeWrite sub w now).score = some w.score ∧
      (applyGradeWrite sub w now).feedback = some w.feedback ∧
      (applyGradeWrite sub w now).gradedAt = some now ∧
      (applyGradeWrite sub w now).gradedBy = some w.gradedBy) ∧
    ((applyGradeWrite sub w now).id = sub.id ∧
      (applyGradeWrite sub w now).assignmentId = sub.assignmentId ∧
      (applyGradeWrite sub w now).studentId = sub.studentId ∧
      (applyGradeWrite sub w now).content = sub.content ∧
      (applyGradeWrite sub w now).audioUrl = sub.audioUrl ∧
      (applyGradeWrite sub w now).audioStoragePath = sub.audioStoragePath ∧
      (applyGradeWrite sub w now).attachments = sub.attachments ∧
      (applyGradeWrite sub w now).submittedAt = sub.submittedAt ∧
      (applyGradeWrite sub w now).teacherId = sub.teacherId ∧
      (applyGradeWrite sub w now).studentName = sub.studentName ∧
      (applyGradeWrite sub w now).studentEmail = sub.studentEmail) := by
  refine ⟨?_, ?_, rfl, ?_, ?_, ?_⟩
  · constructor
    · rintro ⟨w0, hw⟩
      rcases parsedScore with _ | sc
      · simp [handleGradeSubmission] at hw
      · by_cases hrange : sc < 0 ∨ sc > 10
        · simp [handleGradeSubmission, hrange] at hw
        · push_neg at hrange
          exact ⟨sc, rfl, hrange.1, hrange.2⟩
    · rintro ⟨sc, rfl, h0, h10⟩
      have hrange : ¬ (sc < 0 ∨ sc > 10) := by
        push_neg
        exact ⟨h0, h10⟩
      exact ⟨⟨sid, sc, feedback, u.id⟩, by simp [handleGradeSubmission, hrange]⟩
  · rintro sc rfl hrange
    simp [handleGradeSubmission, hrange]
  · intro sc hrange
    simp [handleGradeSubmission, hrange]
  · exact ⟨rfl, rfl, rfl, rfl⟩
  · exact ⟨rfl, rfl, rfl, rfl, rfl, rfl, rfl, rfl, rfl, rfl, rfl⟩

/-- C4: every write made by saveProgress targets the document whose key is
the string userId_videoId of the current student and the selected video
(without either, nothing is written); any number of saves for the same pair
leave every other key of the store untouched, and the key of the pair holds
the single document of the latest save. -/
theorem C4_saveProgress_keyed (store : String → Option WatchProgressDoc) (u : User)
    (v : Video) (saves : List (ℚ × Int)) (t : ℚ) (now : Int) (q : String) :
    saveProgressWrite (some u) (some v) t now =
      some (u.id ++ "_" ++ v.id, saveProgressDoc u v t now) ∧
    saveProgressWrite none (some v) t now = none ∧
    saveProgressWrite (some u) none t now = none ∧
    (q ≠ progressDocId u.id v.id → runSaves store u v saves q = store q) ∧
    runSaves store u v (saves ++ [(t, now)]) (progressDocId u.id v.id) =
      some (saveProgressDoc u v t now) := by
  refine ⟨rfl, rfl, rfl, ?_, ?_⟩
  · intro hq
    induction saves generalizing store with
    | nil => rfl
    | cons p rest ih =>
        show runSaves (saveProgressRun store u v p.1 p.2) u v rest q = store q
        rw [ih (saveProgressRun store u v p.1 p.2)]
        simp [saveProgressRun, setProgressDoc, hq]
  · show ((saves ++ [(t, now)]).foldl (fun st p => saveProgressRun st u v p.1 p.2)
        store) (progressDocId u.id v.id) = some (saveProgressDoc u v t now)
    rw [List.foldl_append]
    simp [saveProgressRun, setProgressDoc]

/-- C5: handleSubmitAssignment writes a submission document only when a
student is signed in and the referenced assignment is found in the loaded
assignment list; without a user nothing happens, with a user but no matching
assignment the not-found alert is shown and nothing is written; the written
document carries the found assignment's teacherId and the current student's
id, name and email. -/
theorem C5_submit_requires_assignment (currentUser : Option User)
    (assignments : List Assignment) (assignmentId content : String)
    (attachments : List SubmissionAttachment) (audioUrl audioStoragePath : Option String)
    (docId : String) (now : Int) (uploadsOk : Bool) :
    (∀ d : SubmissionDoc,
      handleSubmitAssignment currentUser assignments assignmentId content attachments
          audioUrl audioStoragePath docId now uploadsOk = SubmitResult.write d →
        (∃ u : User, currentUser = some u ∧ d.studentId = u.id ∧
          d.studentName = u.name ∧ d.studentEmail = u.email) ∧
        (∃ a ∈ assignments, a.id = assignmentId ∧ d.teacherId = a.teacherId)) ∧
    handleSubmitAssignment none assignments assignmentId content attachments audioUrl
        audioStoragePath docId now uploadsOk = SubmitResult.noop ∧
    (∀ u : User,
      assignments.find? (fun a => decide (a.id = assignmentId)) = none →
        handleSubmitAssignment (some u) assignments assignmentId content attachments
          audioUrl audioStoragePath docId now uploadsOk = SubmitResult.alertNotFound) := by
  refine ⟨?_, rfl, ?_⟩
  · intro d hd
    rcases currentUser with _ | u
    · simp [handleSubmitAssignment] at hd
    · rcases hfind : assignments.find? (fun a => decide (a.id = assignmentId)) with _ | a
      · simp [handleSubmitAssignment, hfind] at hd
      · rcases uploadsOk with _ | _
        · simp [handleSubmitAssignment, hfind] at hd
        · simp only [handleSubmitAssignment, hfind, if_true] at hd
          have hmem : a ∈ assignments := List.mem_of_find?_eq_some hfind
          have hpa : a.id = assignmentId := by
            have := List.find?_some hfind
            simpa using this
          obtain rfl : _ = d := by injection hd
          exact ⟨⟨u, rfl, rfl, rfl, rfl⟩, ⟨a, hmem, hpa, rfl⟩⟩
  · intro u hfind
    simp [handleSubmitAssignment, hfind]

/-- C6: with a signed-in user and a selected video, handleProgressUpdate
triggers a backend write (saveProgress with the reported time) exactly when
the reported time is at least 5 seconds past the last synced time; otherwise
it only updates the local current-watch-time and writes nothing; when a sync
occurs the last-synced reference is set to the reported time; without user
or video only the local time is updated. -/
theorem C6_progress_sync_threshold (st : PlayerSyncState) (time : ℚ) :
    ((∃ t0 : ℚ, (handleProgressUpdate true st time).2 = some t0) ↔
      5 ≤ time - st.lastSyncedWatchTime) ∧
    (¬ 5 ≤ time - st.lastSyncedWatchTime →
      handleProgressUpdate true st time = ({ st with currentWatchTime := time }, none)) ∧
    (5 ≤ time - st.lastSyncedWatchTime →
      handleProgressUpdate true st time =
        ({ currentWatchTime := time, lastSyncedWatchTime := time }, some time)) ∧
    handleProgressUpdate false st time = ({ st with currentWatchTime := time }, none) := by
  by_cases h : time - st.lastSyncedWatchTime < 5
  · have h2 : ¬ 5 ≤ time - st.lastSyncedWatchTime := not_le.2 h
    simp [handleProgressUpdate, h, h2]
  · have h2 : 5 ≤ time - st.lastSyncedWatchTime := not_lt.1 h
    simp [handleProgressUpdate, h, h2]

/-- C8: saveProgress marks the video completed exactly when the selected
video's duration is positive and the watch time has reached it; a video with
duration 0 is never marked completed, whatever the watch time. -/
theorem C8_completed_requires_duration (u : User) (v : Video) (t : ℚ) (now : Int) :
    ((saveProgressDoc u v t now).completed = true ↔
      0 < v.duration ∧ v.duration ≤ t) ∧
    (v.duration = 0 → (saveProgressDoc u v t now).completed = false) := by
  constructor
  · by_cases hd : v.duration > 0
    · simp [saveProgressDoc, hd, ge_iff_le]
    · simp only [saveProgressDoc, hd, if_false]
      constructor
      · intro hf
        cases hf
      · intro hcon
        exact hcon.1.elim
  · intro h0
    simp [saveProgressDoc, h0]

/-- C9: toDate is total and maps each class of input as documented: falsy
values (null, undefined, 0, the empty string, false) give the current date,
a Date is returned unchanged, a backend Timestamp is converted via its
toDate method, and every other value is passed to the Date constructor. -/
theorem C9_toDate_total (now : Int) (dateCtor : JSValue → Int) (q : ℚ) (s : String)
    (ms : Int) :
    toDate now dateCtor JSValue.vNull = now ∧
    toDate now dateCtor JSValue.vUndefined = now ∧
    toDate now dateCtor (JSValue.vNumber 0) = now ∧
    toDate now dateCtor (JSValue.vString "") = now ∧
    toDate now dateCtor (JSValue.vBool false) = now ∧
    toDate now dateCtor (JSValue.vDate ms) = ms ∧
    toDate now dateCtor (JSValue.vTimestamp ms) = ms ∧
    (q ≠ 0 → toDate now dateCtor (JSValue.vNumber q) = dateCtor (JSValue.vNumber q)) ∧
    (s ≠ "" → toDate now dateCtor (JSValue.vString s) = dateCtor (JSValue.vString s)) ∧
    toDate now dateCtor (JSValue.vBool true) = dateCtor (JSValue.vBool true) := by
  refine ⟨by simp [toDate, isFalsy], by simp [toDate, isFalsy],
    by simp [toDate, isFalsy], by simp [toDate, isFalsy], by simp [toDate, isFalsy],
    by simp [toDate, isFalsy], by simp [toDate, isFalsy], ?_, ?_,
    by simp [toDate, isFalsy]⟩
  · intro hq
    simp [toDate, isFalsy, hq]
  · intro hs
    simp [toDate, isFalsy, hs]

/-- C10: the assignment form's handleSubmit invokes onSubmit exactly when at
least one answer channel is non-empty (trimmed text, a selected file, or a
recorded audio blob); with all three empty it alerts and invokes nothing,
keeping the state; after invoking, the text, recording and file selection
are reset and the payload carries the untrimmed text, the files and the
recording. -/
theorem C10_form_submit_nonempty (st : AssignmentFormState) :
    ((formHandleSubmit st).2.isSome ↔
      (st.content.trim ≠ "" ∨ st.audioBlob ≠ none ∨ st.selectedFiles ≠ [])) ∧
    (st.content.trim = "" → st.audioBlob = none → st.selectedFiles = [] →
      formHandleSubmit st = (st, none)) ∧
    (∀ p : AssignmentSubmissionPayload, (formHandleSubmit st).2 = some p →
      (formHandleSubmit st).1 =
        { content := "", audioBlob := none, audioFileName := none,
          selectedFiles := [] } ∧
      p = ⟨st.content, st.selectedFiles, st.audioBlob, st.audioFileName⟩) := by
  by_cases h : st.content.trim = "" ∧ st.audioBlob = none ∧ st.selectedFiles = []
  · obtain ⟨h1, h2, h3⟩ := h
    refine ⟨?_, fun _ _ _ => by simp [formHandleSubmit, h1, h2, h3], ?_⟩
    · simp [formHandleSubmit, h1, h2, h3]
    · intro p hp
      simp [formHandleSubmit, h1, h2, h3] at hp
  · refine ⟨?_, ?_, ?_⟩
    · simp only [formHandleSubmit, h, if_false, Option.isSome_some, true_iff]
      by_cases h1 : st.content.trim = ""
      · by_cases h2 : st.audioBlob = none
        · by_cases h3 : st.selectedFiles = []
          · exact absurd ⟨h1, h2, h3⟩ h
          · exact Or.inr (Or.inr h3)
        · exact Or.inr (Or.inl h2)
      · exact Or.inl h1
    · intro h1 h2 h3
      exact absurd ⟨h1, h2, h3⟩ h
    · intro p hp
      simp only [formHandleSubmit, h, if_false] at hp ⊢
      obtain rfl : _ = p := by injection hp
      exact ⟨trivial, rfl⟩

theorem uploadFilesTrace_all_of_ok :
    ∀ (fs : List Bool) (i : Nat), (uploadFilesTrace i fs).2 = true →
      (uploadFilesTrace i fs).1.all (fun c => c.2) = true := by
  intro fs
  induction fs with
  | nil => intro i _; rfl
  | cons ok rest ih =>
      intro i h
      rcases ok with _ | _
      · simp [uploadFilesTrace] at h
      · simp only [uploadFilesTrace, if_true] at h ⊢
        simp [ih (i + 1) h]

theorem uploadFilesTrace_dropLast_all :
    ∀ (fs : List Bool) (i : Nat),
      (uploadFilesTrace i fs).1.dropLast.all (fun c => c.2) = true := by
  intro fs
  induction fs with
  | nil => intro i; rfl
  | cons ok rest ih =>
      intro i
      rcases ok with _ | _
      · simp [uploadFilesTrace]
      · by_cases hrest : (uploadFilesTrace (i + 1) rest).1 = []
        · simp [uploadFilesTrace, hrest]
        · simp [uploadFilesTrace, List.dropLast_cons_of_ne_nil hrest, ih (i + 1)]

theorem uploadFilesTrace_any_of_fail :
    ∀ (fs : List Bool) (i : Nat), (uploadFilesTrace i fs).2 = false →
      (uploadFilesTrace i fs).1.any (fun c => !c.2) = true := by
  intro fs
  induction fs with
  | nil => intro i h; simp [uploadFilesTrace] at h
  | cons ok rest ih =>
      intro i h
      rcases ok with _ | _
      · simp [uploadFilesTrace]
      · simp only [uploadFilesTrace, if_true] at h ⊢
        simp [ih (i + 1) h]

theorem uploadFilesTrace_idx :
    ∀ (fs : List Bool) (i : Nat) (c : BackendCall × Bool),
      c ∈ (uploadFilesTrace i fs).1 →
        ∃ j, i ≤ j ∧ c.1 = BackendCall.submissionFileUpload j := by
  intro fs
  induction fs with
  | nil => intro i c hc; simp [uploadFilesTrace] at hc
  | cons ok rest ih =>
      intro i c hc
      rcases ok with _ | _
      · simp [uploadFilesTrace] at hc
        exact ⟨i, le_refl i, by rw [hc]⟩
      · simp only [uploadFilesTrace, if_true, List.mem_cons] at hc
        rcases hc with rfl | hc
        · exact ⟨i, le_refl i, rfl⟩
        · rcases ih (i + 1) c hc with ⟨j, hj, hcj⟩
          exact ⟨j, le_trans (Nat.le_succ i) hj, hcj⟩

theorem uploadFilesTrace_nodup :
    ∀ (fs : List Bool) (i : Nat),
      ((uploadFilesTrace i fs).1.map (fun c => c.1)).Nodup := by
  intro fs
  induction fs with
  | nil => intro i; simp [uploadFilesTrace]
  | cons ok rest ih =>
      intro i
      rcases ok with _ | _
      · simp [uploadFilesTrace]
      · simp only [uploadFilesTrace, if_true, List.map_cons, List.nodup_cons]
        refine ⟨?_, ih (i + 1)⟩
        intro hmem
        rcases List.mem_map.1 hmem with ⟨c, hc, hcj⟩
        rcases uploadFilesTrace_idx rest (i + 1) c hc with ⟨j, hj, hcj2⟩
        rw [hcj2] at hcj
        have : j = i := by
          injection hcj
        omega

theorem any_fail_eq_false_of_all (l : List (BackendCall × Bool))
    (h : l.all (fun c => c.2) = true) : l.any (fun c => !c.2) = false := by
  rw [List.any_eq_false]
  intro c hc
  have := (List.all_eq_true.1 h) c hc
  simp [this]

/-- A trace `F ++ L` is well behaved when `F` is an all-successful prefix of
numbered file uploads and `L` is a well-behaved concrete tail of other call
sites. -/
theorem wellBehaved_append_tail (F L : List (BackendCall × Bool)) (alert : AlertKind)
    (hall : F.all (fun c => c.2) = true)
    (hnodup : (F.map (fun c => c.1)).Nodup)
    (hidx : ∀ c ∈ F, ∃ j, c.1 = BackendCall.submissionFileUpload j)
    (hL : L ≠ [])
    (hLdrop : L.dropLast.all (fun c => c.2) = true)
    (hLalert : alert = AlertKind.failureAlert ↔ L.any (fun c => !c.2) = true)
    (hLnodup : (L.map (fun c => c.1)).Nodup)
    (hLnotupload : ∀ c ∈ L, ∀ j, c.1 ≠ BackendCall.submissionFileUpload j) :
    WellBehavedTrace (F ++ L, alert) := by
  refine ⟨?_, ?_, ?_⟩
  · rw [List.dropLast_append_of_ne_nil F hL, List.all_append]
    have hdropF : F.dropLast.all (fun c => c.2) = true := by
      rw [List.all_eq_true]
      intro c hc
      exact (List.all_eq_true.1 hall) c (List.dropLast_subset F hc)
    simp [hall, hLdrop]
  · rw [List.any_append, any_fail_eq_false_of_all F hall]
    simpa using hLalert
  · rw [List.map_append, List.nodup_append]
    refine ⟨hnodup, hLnodup, ?_⟩
    intro a haF haL
    rcases List.mem_map.1 haF with ⟨c, hc, rfl⟩
    rcases List.mem_map.1 haL with ⟨c2, hc2, he⟩
    rcases hidx c hc with ⟨j, hj⟩
    exact hLnotupload c2 hc2 j (he.trans hj)

theorem wellBehaved_uploadVideoTrace :
    ∀ a b c d : Bool, WellBehavedTrace (uploadVideoTrace a b c d) := by
  unfold WellBehavedTrace uploadVideoTrace
  decide

theorem wellBehaved_createAssignmentTrace :
    ∀ a b c d : Bool, WellBehavedTrace (createAssignmentTrace a b c d) := by
  unfold WellBehavedTrace createAssignmentTrace
  decide

theorem wellBehaved_gradeTrace :
    ∀ a b c : Bool, WellBehavedTrace (gradeTrace a b c) := by
  unfold WellBehavedTrace gradeTrace
  decide

theorem wellBehaved_submitTrace :
    ∀ (userOk assignmentFound : Bool) (fileResults : List Bool)
      (hasAudio audioOk setOk : Bool),
      WellBehavedTrace
        (submitTrace userOk assignmentFound fileResults hasAudio audioOk setOk) := by
  intro userOk assignmentFound fileResults hasAudio audioOk setOk
  rcases userOk with _ | _
  · unfold WellBehavedTrace
    simp [submitTrace]
  · rcases assignmentFound with _ | _
    · unfold WellBehavedTrace
      simp [submitTrace]
    · rcases hff : (uploadFilesTrace 0 fileResults).2 with _ | _
      · have h1 := uploadFilesTrace_dropLast_all fileResults 0
        have h2 := uploadFilesTrace_any_of_fail fileResults 0 hff
        have h3 := uploadFilesTrace_nodup fileResults 0
        unfold WellBehavedTrace
        simp [submitTrace, hff, h1, h2, h3]
      · have hall := uploadFilesTrace_all_of_ok fileResults 0 hff
        have hnodup := uploadFilesTrace_nodup fileResults 0
        have hidx : ∀ c ∈ (uploadFilesTrace 0 fileResults).1,
            ∃ j, c.1 = BackendCall.submissionFileUpload j := by
          intro c hc
          rcases uploadFilesTrace_idx fileResults 0 c hc with ⟨j, _, hcj⟩
          exact ⟨j, hcj⟩
        rcases hasAudio with _ | _
        · rcases setOk with _ | _
          · have := wellBehaved_append_tail (uploadFilesTrace 0 fileResults).1
              [(BackendCall.submissionSetDoc, false)] AlertKind.failureAlert
              hall hnodup hidx (by simp) (by decide) (by decide) (by decide)
              (by rintro c hc j; simp only [List.mem_cons, List.not_mem_nil, or_false] at hc; subst hc; simp)
            simpa [submitTrace, hff] using this
          · have := wellBehaved_append_tail (uploadFilesTrace 0 fileResults).1
              [(BackendCall.submissionSetDoc, true)] AlertKind.successAlert
              hall hnodup hidx (by simp) (by decide) (by decide) (by decide)
              (by rintro c hc j; simp only [List.mem_cons, List.not_mem_nil, or_false] at hc; subst hc; simp)
            simpa [submitTrace, hff] using this
        · rcases audioOk with _ | _
          · have := wellBehaved_append_tail (uploadFilesTrace 0 fileResults).1
              [(BackendCall.submissionAudioUpload, false)] AlertKind.failureAlert
              hall hnodup hidx (by simp) (by decide) (by decide) (by decide)
              (by rintro c hc j; simp only [List.mem_cons, List.not_mem_nil, or_false] at hc; subst hc; simp)
            simpa [submitTrace, hff] using this
          · rcases setOk with _ | _
            · have := wellBehaved_append_tail (uploadFilesTrace 0 fileResults).1
                [(BackendCall.submissionAudioUpload, true),
                  (BackendCall.submissionSetDoc, false)] AlertKind.failureAlert
                hall hnodup hidx (by simp) (by decide) (by decide) (by decide)
                (by rintro c hc j
                    simp only [List.mem_cons, List.not_mem_nil, or_false] at hc
                    rcases hc with rfl | rfl
                    · simp
                    · simp)
              simpa [submitTrace, hff] using this
            · have := wellBehaved_append_tail (uploadFilesTrace 0 fileResults).1
                [(BackendCall.submissionAudioUpload, true),
                  (BackendCall.submissionSetDoc, true)] AlertKind.successAlert
                hall hnodup hidx (by simp) (by decide) (by decide) (by decide)
                (by rintro c hc j
                    simp only [List.mem_cons, List.not_mem_nil, or_false] at hc
                    rcases hc with rfl | rfl
                    · simp
                    · simp)
              simpa [submitTrace, hff] using this

/-- C7: every backend write handler (video upload, assignment creation,
grading, assignment submission) catches failures at its own call site and
surfaces them as the failure alert of that handler, never as an exception:
for every pattern of call failures, every call but the last in the trace
succeeded (nothing runs after an error), the failure alert is shown exactly
when some call failed, and no call site is attempted twice (no retry). -/
theorem C7_handlers_catch_at_call_site (a1 a2 a3 a4 b1 b2 b3 b4 g1 g2 g3 : Bool)
    (s1 s2 : Bool) (fileResults : List Bool) (s3 s4 s5 : Bool) :
    WellBehavedTrace (uploadVideoTrace a1 a2 a3 a4) ∧
    WellBehavedTrace (createAssignmentTrace b1 b2 b3 b4) ∧
    WellBehavedTrace (gradeTrace g1 g2 g3) ∧
    WellBehavedTrace (submitTrace s1 s2 fileResults s3 s4 s5) :=
  ⟨wellBehaved_uploadVideoTrace a1 a2 a3 a4,
    wellBehaved_createAssignmentTrace b1 b2 b3 b4,
    wellBehaved_gradeTrace g1 g2 g3,
    wellBehaved_submitTrace s1 s2 fileResults s3 s4 s5⟩

end ELearning
